import Mathlib

/-!
Shallow embedding of the slash-command Markdown editor of
`src/components/MarkdownEditor.tsx` (hmy-bookbrain).

JS strings are modelled as `List Char` (every character occurring in the
command catalog is a single UTF-16 code unit, so code-unit indices and
character indices coincide).  The React component state
(`value`, `showMenu`, `menuFilter`, `selectedIndex`, `slashPosition`)
together with the textarea caret (`selectionStart`) forms `EditorState`.
Event handlers (`handleChange`, `handleKeyDown`, the outside-click
listener, the menu buttons) become transition functions, and the
`useEffect` that resets `selectedIndex` whenever `showMenu`/`menuFilter`
change while the menu is shown is applied after each raw transition,
mirroring React's render/effect cycle.
-/

namespace BookBrain

/-- JavaScript `String.prototype.substring(a, b)`: both indices are clamped
to `[0, length]` and swapped when `a > b`.  (The editor only ever calls it
with nonnegative indices, so `Nat` arguments are faithful.) -/
def jsSubstring (l : List Char) (a b : Nat) : List Char :=
  let a' := min a l.length
  let b' := min b l.length
  (l.drop (min a' b')).take (max a' b' - min a' b')

/-- JavaScript array indexing `l[i]` with a (possibly negative) number
index: out-of-range access yields `undefined`, modelled as `none`. -/
def jsIndex {α : Type} (l : List α) (i : Int) : Option α :=
  if h : 0 ≤ i ∧ i.toNat < l.length then some (l.get ⟨i.toNat, h.2⟩)
  else none

/-- One entry of the slash-command catalog (`interface SlashCommand`).
The `icon` field is a React node with no editor semantics and is omitted.
A missing `cursorOffset` in the source is read as `0`
(`command.cursorOffset || 0`), modelled by the default value. -/
structure SlashCommand where
  id : List Char
  label : List Char
  description : List Char
  insert : List Char
  cursorOffset : Int := 0
deriving DecidableEq, Repr

/-- The static catalog `slashCommands` from the source, in declaration
order. -/
def slashCommands : List SlashCommand :=
  [ { id := "h1".toList, label := "見出し1".toList,
      description := "大見出し".toList, insert := "# ".toList },
    { id := "h2".toList, label := "見出し2".toList,
      description := "中見出し".toList, insert := "## ".toList },
    { id := "h3".toList, label := "見出し3".toList,
      description := "小見出し".toList, insert := "### ".toList },
    { id := "bullet".toList, label := "箇条書き".toList,
      description := "・リスト".toList, insert := "- ".toList },
    { id := "number".toList, label := "番号リスト".toList,
      description := "1. 2. 3.".toList, insert := "1. ".toList },
    { id := "todo".toList, label := "TODOリスト".toList,
      description := "未完了タスク".toList, insert := "- [ ] ".toList },
    { id := "done".toList, label := "完了タスク".toList,
      description := "完了済みタスク".toList, insert := "- [x] ".toList },
    { id := "quote".toList, label := "引用".toList,
      description := "引用ブロック".toList, insert := "> ".toList },
    { id := "code".toList, label := "コードブロック".toList,
      description := "プログラムコード".toList,
      insert := "```\n\n```".toList, cursorOffset := -4 },
    { id := "bold".toList, label := "太字".toList,
      description := "強調テキスト".toList, insert := "****".toList,
      cursorOffset := -2 },
    { id := "italic".toList, label := "斜体".toList,
      description := "イタリック".toList, insert := "**".toList,
      cursorOffset := -1 },
    { id := "link".toList, label := "リンク".toList,
      description := "URLリンク".toList, insert := "[](URL)".toList,
      cursorOffset := -6 },
    { id := "hr".toList, label := "区切り線".toList,
      description := "水平線".toList, insert := "\n---\n".toList },
    { id := "table".toList, label := "テーブル".toList,
      description := "表を作成".toList,
      insert := "| 列1 | 列2 | 列3 |\n| --- | --- | --- |\n| データ | データ | データ |".toList } ]

/-- `s.toLowerCase()`.  `Char.toLower` lowercases exactly the ASCII
letters; on every character occurring in the catalog (ASCII plus caseless
Japanese text) this agrees with JavaScript `toLowerCase`. -/
def toLowerList (l : List Char) : List Char := l.map Char.toLower

/-- The predicate of the `slashCommands.filter(...)` call: the query
matches a command when the lowercased `id`, `label` or `description`
contains the lowercased query as a contiguous substring
(`String.prototype.includes`). -/
def matchesQuery (q : List Char) (cmd : SlashCommand) : Prop :=
  toLowerList q <:+: toLowerList cmd.id ∨
  toLowerList q <:+: toLowerList cmd.label ∨
  toLowerList q <:+: toLowerList cmd.description

instance (q : List Char) (cmd : SlashCommand) :
    Decidable (matchesQuery q cmd) := by
  unfold matchesQuery; infer_instance

/-- `filteredCommands` from the source: filter the catalog by the current
menu filter, keeping declaration order. -/
def filteredCommands (q : List Char) : List SlashCommand :=
  slashCommands.filter fun cmd => decide (matchesQuery q cmd)

/-- The component state: the controlled `value` prop, the textarea caret
(`selectionStart`), and the menu-related `useState` cells.  The popup's
pixel position is presentation-only and is modelled separately by
`calculateCaretPosition`. -/
structure EditorState where
  value : List Char
  caret : Nat
  showMenu : Bool
  menuFilter : List Char
  selectedIndex : Int
  slashPosition : Option Nat
deriving DecidableEq, Repr

/-- `closeMenu`: hide the menu, clear the filter, forget the trigger. -/
def closeMenu (s : EditorState) : EditorState :=
  { s with showMenu := false, menuFilter := [], slashPosition := none }

/-- The `useEffect` with dependency list `[showMenu, menuFilter]`: after a
transition from `s0` to `s1`, if the menu is shown and either dependency
changed, `selectedIndex` is reset to `0`. -/
def applyMenuEffect (s0 s1 : EditorState) : EditorState :=
  if s1.showMenu = true ∧
      (s0.showMenu ≠ s1.showMenu ∨ s0.menuFilter ≠ s1.menuFilter) then
    { s1 with selectedIndex := 0 }
  else s1

/-- `handleChange` before the `useEffect` runs: the textarea reports the
new text and the caret after the edit; the handler updates the menu state
and hands the new value up (`onChange`), and the textarea's caret becomes
`cursorPos`. -/
def handleChangeRaw (s : EditorState) (newValue : List Char)
    (cursorPos : Nat) : EditorState :=
  let s1 :=
    if s.value.length < newValue.length then
      -- insertion branch: `newValue.length > value.length`
      let addedChar : Option Char :=
        if cursorPos = 0 then none else newValue.get? (cursorPos - 1)
      if addedChar = some '/' then
        let beforeSlash : Option Char :=
          if 1 < cursorPos then newValue.get? (cursorPos - 2)
          else some '\n'
        if beforeSlash = some '\n' ∨ beforeSlash = some ' ' ∨
            cursorPos = 1 then
          { s with showMenu := true, slashPosition := some (cursorPos - 1),
                   menuFilter := [] }
        else s
      else if s.showMenu = true then
        match s.slashPosition with
        | some t =>
          let filterText := jsSubstring newValue (t + 1) cursorPos
          if filterText.contains ' ' ∨ filterText.contains '\n' then
            closeMenu s
          else { s with menuFilter := filterText }
        | none => s
      else s
    else
      -- deletion / same-length branch
      if s.showMenu = true then
        match s.slashPosition with
        | some t =>
          if cursorPos ≤ t then closeMenu s
          else { s with menuFilter := jsSubstring newValue (t + 1) cursorPos }
        | none => s
      else s
  { s1 with value := newValue, caret := cursorPos }

/-- `insertCommand`: splice the chosen snippet over the span from the
trigger to the caret, close the menu, and set the caret via
`setSelectionRange`, which clamps its argument to the bounds of the new
text. -/
def insertCommand (s : EditorState) (cmd : SlashCommand) : EditorState :=
  match s.slashPosition with
  | none => s
  | some t =>
    let before := s.value.take t
    let after := s.value.drop s.caret
    let newValue := before ++ cmd.insert ++ after
    let rawCaret : Int := (t : Int) + cmd.insert.length + cmd.cursorOffset
    let newCaret : Nat := (max 0 (min (newValue.length : Int) rawCaret)).toNat
    { (closeMenu s) with value := newValue, caret := newCaret }

/-- The keys `handleKeyDown` reacts to; every other key is `other`. -/
inductive Key where
  | arrowDown
  | arrowUp
  | enter
  | escape
  | tab
  | other
deriving DecidableEq, Repr

/-- `handleKeyDown` before the `useEffect` runs.  With the menu hidden the
handler returns immediately.  `Enter` and `Tab` commit the entry at
`filteredCommands[selectedIndex]` when that access is defined. -/
def handleKeyDownRaw (s : EditorState) (k : Key) : EditorState :=
  if s.showMenu = false then s
  else
    match k with
    | Key.arrowDown =>
      { s with selectedIndex :=
          if s.selectedIndex <
              (filteredCommands s.menuFilter).length - 1 then
            s.selectedIndex + 1
          else 0 }
    | Key.arrowUp =>
      { s with selectedIndex :=
          if 0 < s.selectedIndex then s.selectedIndex - 1
          else (filteredCommands s.menuFilter).length - 1 }
    | Key.enter =>
      match jsIndex (filteredCommands s.menuFilter) s.selectedIndex with
      | some cmd => insertCommand s cmd
      | none => s
    | Key.escape => closeMenu s
    | Key.tab =>
      match jsIndex (filteredCommands s.menuFilter) s.selectedIndex with
      | some cmd => insertCommand s cmd
      | none => s
    | Key.other => s

/-- The events the editor reacts to.  `change` carries the raw arguments
of the DOM change event; `hoverEntry i` and `clickEntry i` can only fire
for a rendered button, i.e. when the menu is shown and `i` indexes the
filtered list (the popup renders one button per filtered entry);
`clickOutside` is the document-level mousedown listener, installed only
while the menu is shown. -/
inductive Event where
  | change (newValue : List Char) (cursorPos : Nat)
  | key (k : Key)
  | clickOutside
  | hoverEntry (i : Nat)
  | clickEntry (i : Nat)

/-- One step of the editor: the raw handler followed by the
`selectedIndex`-reset effect. -/
def step (s : EditorState) (e : Event) : EditorState :=
  match e with
  | Event.change nv cp => applyMenuEffect s (handleChangeRaw s nv cp)
  | Event.key k => applyMenuEffect s (handleKeyDownRaw s k)
  | Event.clickOutside =>
    applyMenuEffect s (if s.showMenu = true then closeMenu s else s)
  | Event.hoverEntry i =>
    applyMenuEffect s
      (if s.showMenu = true ∧ i < (filteredCommands s.menuFilter).length
       then { s with selectedIndex := (i : Int) } else s)
  | Event.clickEntry i =>
    applyMenuEffect s
      (if s.showMenu = true then
        match (filteredCommands s.menuFilter).get? i with
        | some cmd => insertCommand s cmd
        | none => s
       else s)

/-- Buffer edits performed through the textarea: typing one character at
the caret, or backspace (which deletes the character before the caret; at
caret 0 it is the empty edit).  Each produces the corresponding DOM change
event. -/
inductive EditEv where
  | typeChar (c : Char)
  | backspace
deriving DecidableEq, Repr

/-- Apply a textarea edit: build the post-edit text and caret the DOM
would report and feed them to `step`. -/
def stepEdit (s : EditorState) (e : EditEv) : EditorState :=
  match e with
  | EditEv.typeChar c =>
    step s (Event.change (s.value.take s.caret ++ [c] ++ s.value.drop s.caret)
      (s.caret + 1))
  | EditEv.backspace =>
    step s (Event.change (s.value.take (s.caret - 1) ++ s.value.drop s.caret)
      (s.caret - 1))

/-- The initial component state: empty buffer, menu closed. -/
def initState : EditorState :=
  { value := [], caret := 0, showMenu := false, menuFilter := [],
    selectedIndex := 0, slashPosition := none }

/-- A pixel position, as produced by the caret-to-screen projector. -/
structure CaretPos where
  top : Int
  left : Int
deriving DecidableEq, Repr

/-- The measurements `calculateCaretPosition` reads from the DOM once the
mirror element exists: the bounding rectangles of the marker span and of
the mirror, and the textarea's vertical scroll. -/
structure MirrorMetrics where
  spanTop : Int
  spanLeft : Int
  mirrorTop : Int
  mirrorLeft : Int
  scrollTop : Int
deriving DecidableEq, Repr

/-- `calculateCaretPosition`: when the mirror ref is not mounted
(`mirrorRef.current` is null) the default position is returned; otherwise
the marker's offsets inside the mirror are corrected by the scroll and a
fixed line-height offset of 24 pixels. -/
def calculateCaretPosition (mirror : Option MirrorMetrics)
    (position : Nat) : CaretPos :=
  match mirror with
  | none => { top := 0, left := 0 }
  | some m =>
    { top := m.spanTop - m.mirrorTop - m.scrollTop + 24,
      left := m.spanLeft - m.mirrorLeft }

/-- The menu-state invariant of the data-model section of the spec: the
caret stays in the buffer, and while the menu is open the trigger offset
still holds a slash, the filter is exactly the buffer text between the
trigger and the caret, and the filter holds no space or newline. -/
def InvC2 (s : EditorState) : Prop :=
  s.caret ≤ s.value.length ∧
  (s.showMenu = true →
    ∃ t, s.slashPosition = some t ∧
      t < s.caret ∧
      s.value.get? t = some '/' ∧
      s.menuFilter = jsSubstring s.value (t + 1) s.caret ∧
      s.menuFilter.contains ' ' = false ∧
      s.menuFilter.contains '\n' = false)

/-- The edits under which the menu-state invariant is actually preserved
by the code: any backspace, and typing any character other than `/`. -/
def editAllowed : EditEv → Prop
  | EditEv.typeChar c => c ≠ '/'
  | EditEv.backspace => True

instance : DecidablePred editAllowed := by
  intro e
  cases e <;> unfold editAllowed <;> infer_instance

/-- The bound on `selectedIndex` maintained by the reset effect: while the
menu is shown with a non-empty filtered list, the highlighted index is a
valid index of that list. -/
def Inv10 (s : EditorState) : Prop :=
  s.showMenu = true → filteredCommands s.menuFilter ≠ [] →
    0 ≤ s.selectedIndex ∧
    s.selectedIndex < ((filteredCommands s.menuFilter).length : Int)

/-! ## Helper lemmas -/

theorem jsSubstring_eq_of_le (l : List Char) (a b : Nat) (hab : a ≤ b)
    (hb : b ≤ l.length) : jsSubstring l a b = (l.drop a).take (b - a) := by
  have ha : a ≤ l.length := le_trans hab hb
  unfold jsSubstring
  simp only [Nat.min_eq_left ha, Nat.min_eq_left hb, Nat.min_eq_left hab,
    Nat.max_eq_right hab]

theorem length_insertAt (v : List Char) (c : Char) (i : Nat)
    (h : i ≤ v.length) :
    (v.take i ++ [c] ++ v.drop i).length = v.length + 1 := by
  simp
  omega

theorem get?_append_take (v w : List Char) (t n : Nat) (ht : t < n)
    (hn : n ≤ v.length) : (v.take n ++ w).get? t = v.get? t := by
  simp only [List.get?_eq_getElem?]
  rw [List.getElem?_append_left
    (by rw [List.length_take]; exact lt_min ht (lt_of_lt_of_le ht hn)),
    List.getElem?_take_of_lt ht]

theorem get?_insertAt_self (v : List Char) (c : Char) (i : Nat)
    (h : i ≤ v.length) : (v.take i ++ [c] ++ v.drop i).get? i = some c := by
  have hl : (v.take i).length = i := by
    rw [List.length_take]; exact Nat.min_eq_left h
  simp only [List.get?_eq_getElem?, List.append_assoc]
  rw [List.getElem?_append_right (le_of_eq hl), hl, Nat.sub_self]
  simp

theorem jsSubstring_insertAt (v : List Char) (c : Char) (t caret : Nat)
    (ht : t < caret) (hc : caret ≤ v.length) :
    jsSubstring (v.take caret ++ [c] ++ v.drop caret) (t + 1) (caret + 1)
      = jsSubstring v (t + 1) caret ++ [c] := by
  have hlen : (v.take caret ++ [c] ++ v.drop caret).length = v.length + 1 :=
    length_insertAt v c caret hc
  have htake : (v.take caret).length = caret := by
    rw [List.length_take]; exact Nat.min_eq_left hc
  rw [jsSubstring_eq_of_le _ _ _ (by omega) (by omega),
    jsSubstring_eq_of_le _ _ _ (by omega) hc, List.append_assoc,
    List.drop_append_eq_append_drop, htake]
  have h0 : t + 1 - caret = 0 := by omega
  rw [h0, List.drop_zero, List.take_append_eq_append_take]
  have hAlen : ((v.take caret).drop (t + 1)).length = caret - (t + 1) := by
    rw [List.length_drop, htake]
  have hA : ((v.take caret).drop (t + 1)).take (caret + 1 - (t + 1))
      = (v.take caret).drop (t + 1) :=
    List.take_of_length_le (by omega)
  have h1 : caret + 1 - (t + 1) - ((v.take caret).drop (t + 1)).length = 1 := by
    rw [hAlen]; omega
  rw [hA, h1, List.drop_take]
  rfl

theorem jsSubstring_backspace (v : List Char) (t caret : Nat)
    (ht : t + 1 < caret) (hc : caret ≤ v.length) :
    jsSubstring (v.take (caret - 1) ++ v.drop caret) (t + 1) (caret - 1)
      = (jsSubstring v (t + 1) caret).take (caret - 1 - (t + 1)) := by
  have htake : (v.take (caret - 1)).length = caret - 1 := by
    rw [List.length_take]; exact Nat.min_eq_left (by omega)
  have hlen : (v.take (caret - 1) ++ v.drop caret).length = v.length - 1 := by
    rw [List.length_append, htake, List.length_drop]; omega
  rw [jsSubstring_eq_of_le _ _ _ (by omega) (by omega),
    jsSubstring_eq_of_le _ _ _ (by omega) hc,
    List.drop_append_eq_append_drop, htake]
  have h0 : t + 1 - (caret - 1) = 0 := by omega
  rw [h0, List.drop_zero, List.take_append_eq_append_take]
  have hAlen : ((v.take (caret - 1)).drop (t + 1)).length
      = caret - 1 - (t + 1) := by
    rw [List.length_drop, htake]
  have hA : ((v.take (caret - 1)).drop (t + 1)).take (caret - 1 - (t + 1))
      = (v.take (caret - 1)).drop (t + 1) :=
    List.take_of_length_le (by omega)
  have h1 : caret - 1 - (t + 1) - ((v.take (caret - 1)).drop (t + 1)).length
      = 0 := by
    rw [hAlen]; omega
  rw [hA, h1, List.take_zero, List.append_nil, List.drop_take,
    List.take_take]
  congr 1
  omega

theorem contains_eq_false_iff (l : List Char) (a : Char) :
    l.contains a = false ↔ a ∉ l := by
  rw [← Bool.not_eq_true]
  simp [List.contains, List.elem_iff]

theorem contains_take_false (l : List Char) (n : Nat) (a : Char)
    (h : l.contains a = false) : (l.take n).contains a = false := by
  rw [contains_eq_false_iff] at h ⊢
  exact fun hm => h (List.take_subset _ _ hm)

theorem contains_eq_true_iff (l : List Char) (a : Char) :
    l.contains a = true ↔ a ∈ l := by
  simp [List.contains, List.elem_iff]

theorem contains_append_single_false (l : List Char) (c a : Char)
    (h1 : l.contains a = false) (h2 : c ≠ a) :
    (l ++ [c]).contains a = false := by
  rw [contains_eq_false_iff] at h1 ⊢
  intro hm
  rcases List.mem_append.mp hm with hm | hm
  · exact h1 hm
  · rw [List.mem_singleton] at hm
    exact h2 hm.symm

theorem applyMenuEffect_value (s0 s1 : EditorState) :
    (applyMenuEffect s0 s1).value = s1.value := by
  unfold applyMenuEffect; split <;> rfl

theorem applyMenuEffect_caret (s0 s1 : EditorState) :
    (applyMenuEffect s0 s1).caret = s1.caret := by
  unfold applyMenuEffect; split <;> rfl

theorem applyMenuEffect_showMenu (s0 s1 : EditorState) :
    (applyMenuEffect s0 s1).showMenu = s1.showMenu := by
  unfold applyMenuEffect; split <;> rfl

theorem applyMenuEffect_menuFilter (s0 s1 : EditorState) :
    (applyMenuEffect s0 s1).menuFilter = s1.menuFilter := by
  unfold applyMenuEffect; split <;> rfl

theorem applyMenuEffect_slashPosition (s0 s1 : EditorState) :
    (applyMenuEffect s0 s1).slashPosition = s1.slashPosition := by
  unfold applyMenuEffect; split <;> rfl

theorem applyMenuEffect_eq_self (s0 s1 : EditorState)
    (hs : s1.showMenu = s0.showMenu) (hf : s1.menuFilter = s0.menuFilter) :
    applyMenuEffect s0 s1 = s1 := by
  unfold applyMenuEffect
  rw [if_neg]
  rintro ⟨h1, h2 | h2⟩
  · exact h2 hs.symm
  · exact h2 hf.symm

theorem applyMenuEffect_self (s : EditorState) :
    applyMenuEffect s s = s :=
  applyMenuEffect_eq_self s s rfl rfl

theorem invC2_applyMenuEffect (s0 s1 : EditorState) :
    InvC2 (applyMenuEffect s0 s1) ↔ InvC2 s1 := by
  unfold applyMenuEffect
  split <;> exact Iff.rfl

theorem catalog_offsets :
    ∀ cmd ∈ slashCommands,
      cmd.cursorOffset ≤ 0 ∧
      1 ≤ (cmd.insert.length : Int) + cmd.cursorOffset := by
  decide

theorem applyMenuEffect_fire (s0 s1 : EditorState) (h1 : s1.showMenu = true)
    (hne : s0.showMenu ≠ s1.showMenu ∨ s0.menuFilter ≠ s1.menuFilter) :
    applyMenuEffect s0 s1 = { s1 with selectedIndex := 0 } := by
  unfold applyMenuEffect
  rw [if_pos ⟨h1, hne⟩]

theorem handleChangeRaw_slash (s : EditorState) (nv : List Char) (cp : Nat)
    (hlt : s.value.length < nv.length) (hcp : cp ≠ 0)
    (hget : nv.get? (cp - 1) = some '/') :
    handleChangeRaw s nv cp =
      if (if 1 < cp then nv.get? (cp - 2) else some '\n') = some '\n' ∨
         (if 1 < cp then nv.get? (cp - 2) else some '\n') = some ' ' ∨
         cp = 1 then
        { s with showMenu := true, slashPosition := some (cp - 1),
                 menuFilter := [], value := nv, caret := cp }
      else { s with value := nv, caret := cp } := by
  simp only [handleChangeRaw, if_pos hlt, if_neg hcp, hget]
  by_cases hcond : (if 1 < cp then nv.get? (cp - 2) else some '\n')
        = some '\n' ∨
      (if 1 < cp then nv.get? (cp - 2) else some '\n') = some ' ' ∨ cp = 1
  · simp only [if_pos hcond, if_true]
  · simp only [if_neg hcond, if_true]

theorem handleChangeRaw_insert_open (s : EditorState) (nv : List Char)
    (cp : Nat) (c : Char) (t : Nat)
    (hlt : s.value.length < nv.length) (hcp : cp ≠ 0)
    (hget : nv.get? (cp - 1) = some c) (hc : c ≠ '/')
    (hopen : s.showMenu = true) (hpos : s.slashPosition = some t) :
    handleChangeRaw s nv cp =
      if (jsSubstring nv (t + 1) cp).contains ' ' = true ∨
         (jsSubstring nv (t + 1) cp).contains '\n' = true then
        { s with showMenu := false, menuFilter := [],
                 slashPosition := none, value := nv, caret := cp }
      else { s with menuFilter := jsSubstring nv (t + 1) cp,
                    value := nv, caret := cp } := by
  have hne : (some c : Option Char) ≠ some '/' := by simpa using hc
  simp only [handleChangeRaw, if_pos hlt, if_neg hcp, hget, if_neg hne,
    hopen, hpos, closeMenu]
  by_cases hcond : (jsSubstring nv (t + 1) cp).contains ' ' = true ∨
      (jsSubstring nv (t + 1) cp).contains '\n' = true
  · simp only [if_pos hcond, if_true]
  · simp only [if_neg hcond, if_true]

theorem handleChangeRaw_insert_closed (s : EditorState) (nv : List Char)
    (cp : Nat) (c : Char)
    (hlt : s.value.length < nv.length) (hcp : cp ≠ 0)
    (hget : nv.get? (cp - 1) = some c) (hc : c ≠ '/')
    (hclosed : s.showMenu = false) :
    handleChangeRaw s nv cp = { s with value := nv, caret := cp } := by
  have hne : (some c : Option Char) ≠ some '/' := by simpa using hc
  simp only [handleChangeRaw, if_pos hlt, if_neg hcp, hget, if_neg hne,
    hclosed, Bool.false_eq_true, if_false]

theorem handleChangeRaw_del_open (s : EditorState) (nv : List Char)
    (cp : Nat) (t : Nat)
    (hge : ¬ s.value.length < nv.length)
    (hopen : s.showMenu = true) (hpos : s.slashPosition = some t) :
    handleChangeRaw s nv cp =
      if cp ≤ t then
        { s with showMenu := false, menuFilter := [],
                 slashPosition := none, value := nv, caret := cp }
      else { s with menuFilter := jsSubstring nv (t + 1) cp,
                    value := nv, caret := cp } := by
  simp only [handleChangeRaw, if_neg hge, hopen, hpos, closeMenu]
  by_cases hcond : cp ≤ t
  · simp only [if_pos hcond, if_true]
  · simp only [if_neg hcond, if_true]

theorem handleChangeRaw_del_closed (s : EditorState) (nv : List Char)
    (cp : Nat)
    (hge : ¬ s.value.length < nv.length)
    (hclosed : s.showMenu = false) :
    handleChangeRaw s nv cp = { s with value := nv, caret := cp } := by
  simp only [handleChangeRaw, if_neg hge, hclosed, Bool.false_eq_true,
    if_false]

theorem mem_jsSubstring_of_get? (v : List Char) (a b k : Nat) (ch : Char)
    (h1 : a ≤ k) (h2 : k < b) (h3 : b ≤ v.length)
    (hg : v.get? k = some ch) : ch ∈ jsSubstring v a b := by
  rw [jsSubstring_eq_of_le _ _ _ (by omega) h3]
  have hk : ((v.drop a).take (b - a)).get? (k - a) = some ch := by
    rw [List.get?_eq_getElem?, List.getElem?_take_of_lt (by omega),
      List.getElem?_drop]
    have hka : a + (k - a) = k := by omega
    rw [hka, ← List.get?_eq_getElem?]
    exact hg
  exact List.get?_mem hk

theorem matchesQuery_append_mono (q : List Char) (c : Char)
    (cmd : SlashCommand) (h : matchesQuery (q ++ [c]) cmd) :
    matchesQuery q cmd := by
  have key : ∀ l : List Char,
      toLowerList (q ++ [c]) <:+: l → toLowerList q <:+: l := by
    intro l hl
    obtain ⟨u, w, huw⟩ := hl
    refine ⟨u, Char.toLower c :: w, ?_⟩
    rw [← huw]
    simp [toLowerList]
  rcases h with h | h | h
  · exact Or.inl (key _ h)
  · exact Or.inr (Or.inl (key _ h))
  · exact Or.inr (Or.inr (key _ h))

theorem filteredCommands_append_subset (q : List Char) (c : Char) :
    ∀ cmd ∈ filteredCommands (q ++ [c]), cmd ∈ filteredCommands q := by
  intro cmd hm
  rw [filteredCommands, List.mem_filter] at hm ⊢
  exact ⟨hm.1, decide_eq_true
    (matchesQuery_append_mono q c cmd (of_decide_eq_true hm.2))⟩

theorem handleChangeRaw_selectedIndex (s : EditorState) (nv : List Char)
    (cp : Nat) :
    (handleChangeRaw s nv cp).selectedIndex = s.selectedIndex := by
  simp only [handleChangeRaw, closeMenu]
  repeat' split
  all_goals rfl

theorem insertCommand_selectedIndex (s : EditorState) (cmd : SlashCommand) :
    (insertCommand s cmd).selectedIndex = s.selectedIndex := by
  unfold insertCommand closeMenu
  split
  · rfl
  · rfl

theorem applyMenuEffect_reset (s0 s1 : EditorState) :
    (applyMenuEffect s0 s1).showMenu = true →
    (s0.showMenu = false ∨
      (applyMenuEffect s0 s1).menuFilter ≠ s0.menuFilter) →
    (applyMenuEffect s0 s1).selectedIndex = 0 := by
  unfold applyMenuEffect
  split
  · intro _ _
    rfl
  · rename_i hcond
    intro hshow hchange
    exfalso
    apply hcond
    refine ⟨hshow, ?_⟩
    rcases hchange with h | h
    · refine Or.inl fun heq => ?_
      rw [← heq, h] at hshow
      exact Bool.false_ne_true hshow
    · exact Or.inr fun heq => h heq.symm

theorem inv10_applyMenuEffect (s0 s1 : EditorState) (h : Inv10 s0)
    (hidx : s1.selectedIndex = s0.selectedIndex) :
    Inv10 (applyMenuEffect s0 s1) := by
  unfold applyMenuEffect
  split
  · intro _ hne
    refine ⟨le_refl 0, ?_⟩
    have hpos : 0 < (filteredCommands s1.menuFilter).length :=
      List.length_pos.mpr hne
    show (0 : Int) < ((filteredCommands s1.menuFilter).length : Int)
    exact_mod_cast hpos
  · rename_i hcond
    intro hshow hne
    rw [not_and_or] at hcond
    rcases hcond with hcond | hcond
    · exact absurd hshow hcond
    · rw [not_or, not_ne_iff, not_ne_iff] at hcond
      obtain ⟨hsm, hmf⟩ := hcond
      rw [hidx]
      have := h (by rw [hsm]; exact hshow) (by rw [hmf]; exact hne)
      rw [← hmf]
      exact this

/-! ## Claim theorems -/

/-- C9: when the mirror element of the caret-to-screen projector is not
mounted, `calculateCaretPosition` returns the default position
`{top: 0, left: 0}` for every requested buffer offset, instead of
failing. -/
theorem projector_default_position (position : Nat) :
    calculateCaretPosition none position = { top := 0, left := 0 } := rfl

/-- C4: filtering the catalog with query `q` returns exactly the commands
whose `id`, `label` or `description` contains `q` case-insensitively, as a
sublist of the catalog (declaration order, no re-ranking), and the empty
query returns the full catalog.  `filteredCommands` is a plain function of
the catalog and the query, so purity is inherent. -/
theorem filteredCommands_spec (q : List Char) :
    (∀ cmd, cmd ∈ filteredCommands q ↔
        cmd ∈ slashCommands ∧ matchesQuery q cmd) ∧
    (filteredCommands q).Sublist slashCommands ∧
    filteredCommands [] = slashCommands := by
  refine ⟨fun cmd => ?_, List.filter_sublist _, ?_⟩
  · rw [filteredCommands, List.mem_filter, decide_eq_true_iff]
  · rw [filteredCommands, List.filter_eq_self]
    intro cmd _
    rw [decide_eq_true_iff]
    exact Or.inl (by simp [toLowerList])

/-- C1: committing command `cmd` of the catalog at trigger offset `t`
against buffer `B` with caret `c` (where `t < c ≤ length B`) yields the
buffer `B[0:t] ++ cmd.insert ++ B[c:]`, and the new caret equals
`t + length(cmd.insert) + cmd.cursorOffset` clamped to the bounds of the
new buffer (for every catalog command that value is already in bounds, so
the clamp is exact and the caret lands inside the result). -/
theorem insertCommand_splice (s : EditorState) (cmd : SlashCommand)
    (t : Nat) (hmem : cmd ∈ slashCommands) (hopen : s.showMenu = true)
    (hpos : s.slashPosition = some t) (ht : t < s.caret)
    (hc : s.caret ≤ s.value.length) :
    (insertCommand s cmd).value
        = s.value.take t ++ cmd.insert ++ s.value.drop s.caret ∧
    ((insertCommand s cmd).caret : Int)
        = max 0 (min (((insertCommand s cmd).value.length : Int))
            ((t : Int) + cmd.insert.length + cmd.cursorOffset)) ∧
    ((insertCommand s cmd).caret : Int)
        = (t : Int) + cmd.insert.length + cmd.cursorOffset ∧
    (insertCommand s cmd).caret ≤ (insertCommand s cmd).value.length := by
  obtain ⟨hoff, hlen1⟩ := catalog_offsets cmd hmem
  have hval : (insertCommand s cmd).value
      = s.value.take t ++ cmd.insert ++ s.value.drop s.caret := by
    unfold insertCommand
    rw [hpos]
  have hcar : (insertCommand s cmd).caret
      = (max 0 (min (((s.value.take t ++ cmd.insert
          ++ s.value.drop s.caret).length : Int))
          ((t : Int) + cmd.insert.length + cmd.cursorOffset))).toNat := by
    unfold insertCommand
    rw [hpos]
  have hN : ((s.value.take t ++ cmd.insert ++ s.value.drop s.caret).length
      : Int) = (t : Int) + cmd.insert.length + (s.value.length - s.caret) := by
    have h1 : (s.value.take t).length = t := by
      rw [List.length_take]; exact Nat.min_eq_left (by omega)
    simp [h1]
    omega
  have hraw0 : 0 ≤ (t : Int) + cmd.insert.length + cmd.cursorOffset := by
    omega
  have hrawN : (t : Int) + cmd.insert.length + cmd.cursorOffset
      ≤ ((s.value.take t ++ cmd.insert ++ s.value.drop s.caret).length
        : Int) := by
    rw [hN]; omega
  have hclamp : max 0 (min (((s.value.take t ++ cmd.insert
      ++ s.value.drop s.caret).length : Int))
      ((t : Int) + cmd.insert.length + cmd.cursorOffset))
      = (t : Int) + cmd.insert.length + cmd.cursorOffset := by
    rw [min_eq_right hrawN, max_eq_right hraw0]
  refine ⟨hval, ?_, ?_, ?_⟩
  · rw [hcar, hval, hclamp, Int.toNat_of_nonneg hraw0]
  · rw [hcar, hclamp, Int.toNat_of_nonneg hraw0]
  · have : ((insertCommand s cmd).caret : Int)
        ≤ ((insertCommand s cmd).value.length : Int) := by
      rw [hcar, hval, hclamp, Int.toNat_of_nonneg hraw0]
      exact hrawN
    exact_mod_cast this

/-- Witness for C1: committing the bullet command on the buffer of
Scenario A of the spec. -/
theorem insertCommand_splice_witness :
    (insertCommand
        { value := "Hello\n/bul".toList, caret := 10, showMenu := true,
          menuFilter := "bul".toList, selectedIndex := 0,
          slashPosition := some 6 }
        { id := "bullet".toList, label := "箇条書き".toList,
          description := "・リスト".toList, insert := "- ".toList }).value
      = "Hello\n- ".toList := by
  have h := insertCommand_splice
    { value := "Hello\n/bul".toList, caret := 10, showMenu := true,
      menuFilter := "bul".toList, selectedIndex := 0,
      slashPosition := some 6 }
    { id := "bullet".toList, label := "箇条書き".toList,
      description := "・リスト".toList, insert := "- ".toList }
    6 (by decide) rfl rfl (by decide) (by decide)
  rw [h.1]
  decide

/-- C6: with the menu open over a non-empty filtered list of length `n`
and `selectedIndex` in `[0, n-1]`, ArrowDown moves the index to
`selectedIndex + 1` when below `n-1` and wraps to `0` from `n-1`, ArrowUp
moves it to `selectedIndex - 1` when above `0` and wraps to `n-1` from
`0`; neither key changes the open flag, the buffer, the caret, the filter
text or the trigger offset. -/
theorem arrow_key_navigation (s : EditorState) (hopen : s.showMenu = true)
    (hne : filteredCommands s.menuFilter ≠ [])
    (h0 : 0 ≤ s.selectedIndex)
    (h1 : s.selectedIndex < ((filteredCommands s.menuFilter).length : Int)) :
    (s.selectedIndex < ((filteredCommands s.menuFilter).length : Int) - 1 →
      (step s (Event.key Key.arrowDown)).selectedIndex
        = s.selectedIndex + 1) ∧
    (s.selectedIndex = ((filteredCommands s.menuFilter).length : Int) - 1 →
      (step s (Event.key Key.arrowDown)).selectedIndex = 0) ∧
    (0 < s.selectedIndex →
      (step s (Event.key Key.arrowUp)).selectedIndex
        = s.selectedIndex - 1) ∧
    (s.selectedIndex = 0 →
      (step s (Event.key Key.arrowUp)).selectedIndex
        = ((filteredCommands s.menuFilter).length : Int) - 1) ∧
    (∀ k, k = Key.arrowDown ∨ k = Key.arrowUp →
      (step s (Event.key k)).showMenu = s.showMenu ∧
      (step s (Event.key k)).value = s.value ∧
      (step s (Event.key k)).caret = s.caret ∧
      (step s (Event.key k)).menuFilter = s.menuFilter ∧
      (step s (Event.key k)).slashPosition = s.slashPosition) := by
  have hd : step s (Event.key Key.arrowDown)
      = { s with selectedIndex :=
          if s.selectedIndex
              < ((filteredCommands s.menuFilter).length : Int) - 1 then
            s.selectedIndex + 1
          else 0 } := by
    show applyMenuEffect s (handleKeyDownRaw s Key.arrowDown) = _
    rw [handleKeyDownRaw, if_neg (by rw [hopen]; simp)]
    exact applyMenuEffect_eq_self _ _ rfl rfl
  have hu : step s (Event.key Key.arrowUp)
      = { s with selectedIndex :=
          if 0 < s.selectedIndex then s.selectedIndex - 1
          else ((filteredCommands s.menuFilter).length : Int) - 1 } := by
    show applyMenuEffect s (handleKeyDownRaw s Key.arrowUp) = _
    rw [handleKeyDownRaw, if_neg (by rw [hopen]; simp)]
    exact applyMenuEffect_eq_self _ _ rfl rfl
  refine ⟨?_, ?_, ?_, ?_, ?_⟩
  · intro h; rw [hd]; simp [if_pos h]
  · intro h; rw [hd]; simp [if_neg (by omega : ¬ s.selectedIndex
      < ((filteredCommands s.menuFilter).length : Int) - 1)]
  · intro h; rw [hu]; simp [if_pos h]
  · intro h; rw [hu]; simp [if_neg (by omega : ¬ (0 : Int)
      < s.selectedIndex)]
  · rintro k (rfl | rfl)
    · rw [hd]; exact ⟨rfl, rfl, rfl, rfl, rfl⟩
    · rw [hu]; exact ⟨rfl, rfl, rfl, rfl, rfl⟩

/-- Witness for C6: arrow navigation on a concrete open state with the
full 14-entry catalog and the last index selected. -/
theorem arrow_key_navigation_witness :
    (step
      { value := "/".toList, caret := 1, showMenu := true,
        menuFilter := [], selectedIndex := 13, slashPosition := some 0 }
      (Event.key Key.arrowDown)).selectedIndex = 0 :=
  (arrow_key_navigation
    { value := "/".toList, caret := 1, showMenu := true,
      menuFilter := [], selectedIndex := 13, slashPosition := some 0 }
    rfl (by decide) (by decide) (by decide)).2.1 (by decide)

/-- C7: with the menu open and the filtered list empty, Enter and Tab
leave the entire state unchanged (the menu stays open, nothing is
inserted). -/
theorem empty_filtered_noop (s : EditorState) (hopen : s.showMenu = true)
    (hempty : filteredCommands s.menuFilter = []) :
    step s (Event.key Key.enter) = s ∧ step s (Event.key Key.tab) = s := by
  have hidx : jsIndex (filteredCommands s.menuFilter) s.selectedIndex
      = none := by
    rw [hempty]
    unfold jsIndex
    rw [dif_neg]
    simp
  constructor
  · show applyMenuEffect s (handleKeyDownRaw s Key.enter) = s
    rw [handleKeyDownRaw, if_neg (by rw [hopen]; simp)]
    show applyMenuEffect s
      (match jsIndex (filteredCommands s.menuFilter) s.selectedIndex with
        | some cmd => insertCommand s cmd
        | none => s) = s
    rw [hidx]
    exact applyMenuEffect_self s
  · show applyMenuEffect s (handleKeyDownRaw s Key.tab) = s
    rw [handleKeyDownRaw, if_neg (by rw [hopen]; simp)]
    show applyMenuEffect s
      (match jsIndex (filteredCommands s.menuFilter) s.selectedIndex with
        | some cmd => insertCommand s cmd
        | none => s) = s
    rw [hidx]
    exact applyMenuEffect_self s

/-- Witness for C7: Enter is a no-op on an open state whose filter "zzzz"
matches no command. -/
theorem empty_filtered_noop_witness :
    step
      { value := "/zzzz".toList, caret := 5, showMenu := true,
        menuFilter := "zzzz".toList, selectedIndex := 0,
        slashPosition := some 0 }
      (Event.key Key.enter)
    = { value := "/zzzz".toList, caret := 5, showMenu := true,
        menuFilter := "zzzz".toList, selectedIndex := 0,
        slashPosition := some 0 } :=
  (empty_filtered_noop
    { value := "/zzzz".toList, caret := 5, showMenu := true,
      menuFilter := "zzzz".toList, selectedIndex := 0,
      slashPosition := some 0 }
    rfl (by decide)).1

/-- C8: cancelling an open menu by Escape or by a pointer click outside
the popup closes the menu and leaves the buffer and the caret exactly as
they were at the moment of cancellation; since the buffer is untouched,
no previously committed splice is rolled back. -/
theorem cancel_preserves_buffer (s : EditorState)
    (hopen : s.showMenu = true) :
    (step s (Event.key Key.escape)).value = s.value ∧
    (step s (Event.key Key.escape)).caret = s.caret ∧
    (step s (Event.key Key.escape)).showMenu = false ∧
    (step s Event.clickOutside).value = s.value ∧
    (step s Event.clickOutside).caret = s.caret ∧
    (step s Event.clickOutside).showMenu = false := by
  have hesc : step s (Event.key Key.escape)
      = applyMenuEffect s (closeMenu s) := by
    show applyMenuEffect s (handleKeyDownRaw s Key.escape) = _
    rw [handleKeyDownRaw, if_neg (by rw [hopen]; simp)]
  have hout : step s Event.clickOutside
      = applyMenuEffect s (closeMenu s) := by
    show applyMenuEffect s (if s.showMenu = true then closeMenu s else s)
      = _
    rw [if_pos hopen]
  rw [hesc, hout, applyMenuEffect_value, applyMenuEffect_caret,
    applyMenuEffect_showMenu]
  exact ⟨rfl, rfl, rfl, rfl, rfl, rfl⟩

/-- C3: with the menu closed, inserting the single character `/` at
offset `i` of the buffer opens the menu with `triggerOffset = i`, empty
filter text and `selectedIndex = 0` if and only if `i = 0` or the
preceding buffer character is a newline or a space; in particular typing
`/` directly after any other character never opens the menu. -/
theorem slash_trigger_iff (s : EditorState) (i : Nat)
    (hclosed : s.showMenu = false) (hi : i ≤ s.value.length) :
    ((step s (Event.change (s.value.take i ++ ['/'] ++ s.value.drop i)
        (i + 1))).showMenu = true ∧
     (step s (Event.change (s.value.take i ++ ['/'] ++ s.value.drop i)
        (i + 1))).slashPosition = some i ∧
     (step s (Event.change (s.value.take i ++ ['/'] ++ s.value.drop i)
        (i + 1))).menuFilter = [] ∧
     (step s (Event.change (s.value.take i ++ ['/'] ++ s.value.drop i)
        (i + 1))).selectedIndex = 0) ↔
    (i = 0 ∨ s.value.get? (i - 1) = some '\n'
      ∨ s.value.get? (i - 1) = some ' ') := by
  set nv := s.value.take i ++ ['/'] ++ s.value.drop i with hnv
  have hlen : nv.length = s.value.length + 1 := length_insertAt _ _ _ hi
  have hlt : s.value.length < nv.length := by omega
  have hget : nv.get? (i + 1 - 1) = some '/' := by
    have h1 : i + 1 - 1 = i := by omega
    rw [hnv, h1]
    exact get?_insertAt_self s.value '/' i hi
  have hraw := handleChangeRaw_slash s nv (i + 1) hlt (by omega) hget
  have hbs : (if 1 < i + 1 then nv.get? (i + 1 - 2) else some '\n')
      = if i = 0 then some '\n' else s.value.get? (i - 1) := by
    by_cases h0 : i = 0
    · subst h0
      norm_num
    · rw [if_pos (by omega), if_neg h0]
      have h2 : i + 1 - 2 = i - 1 := by omega
      rw [h2, hnv, List.append_assoc]
      exact get?_append_take _ _ _ _ (by omega) hi
  constructor
  · intro hccl
    by_contra hcnd
    push_neg at hcnd
    obtain ⟨h0, hn, hs'⟩ := hcnd
    have hcondF : ¬ ((if 1 < i + 1 then nv.get? (i + 1 - 2) else some '\n')
          = some '\n' ∨
        (if 1 < i + 1 then nv.get? (i + 1 - 2) else some '\n') = some ' ' ∨
        i + 1 = 1) := by
      rw [hbs, if_neg h0]
      push_neg
      exact ⟨hn, hs', by omega⟩
    have hstep : step s (Event.change nv (i + 1))
        = { s with value := nv, caret := i + 1 } := by
      show applyMenuEffect s (handleChangeRaw s nv (i + 1)) = _
      rw [hraw, if_neg hcondF]
      exact applyMenuEffect_eq_self _ _ rfl rfl
    rw [hstep] at hccl
    have hx : s.showMenu = true := hccl.1
    rw [hclosed] at hx
    exact Bool.false_ne_true hx
  · intro hcnd
    have hcondT : (if 1 < i + 1 then nv.get? (i + 1 - 2) else some '\n')
          = some '\n' ∨
        (if 1 < i + 1 then nv.get? (i + 1 - 2) else some '\n') = some ' ' ∨
        i + 1 = 1 := by
      rw [hbs]
      rcases hcnd with h0 | hn | hs'
      · exact Or.inl (by rw [if_pos h0])
      · by_cases h0 : i = 0
        · exact Or.inl (by rw [if_pos h0])
        · exact Or.inl (by rw [if_neg h0]; exact hn)
      · by_cases h0 : i = 0
        · exact Or.inl (by rw [if_pos h0])
        · exact Or.inr (Or.inl (by rw [if_neg h0]; exact hs'))
    have hstep : step s (Event.change nv (i + 1))
        = { value := nv, caret := i + 1, showMenu := true,
            menuFilter := [], selectedIndex := 0,
            slashPosition := some i } := by
      show applyMenuEffect s (handleChangeRaw s nv (i + 1)) = _
      rw [hraw, if_pos hcondT,
        applyMenuEffect_fire _ _ rfl (Or.inl (by rw [hclosed]; simp))]
      simp
    rw [hstep]
    exact ⟨rfl, rfl, rfl, rfl⟩

/-- Witness for C3: typing `/` at the start of an empty buffer opens the
menu with trigger offset 0. -/
theorem slash_trigger_iff_witness :
    (step initState (Event.change
        (([] : List Char).take 0 ++ ['/'] ++ ([] : List Char).drop 0)
        (0 + 1))).showMenu = true ∧
    (step initState (Event.change
        (([] : List Char).take 0 ++ ['/'] ++ ([] : List Char).drop 0)
        (0 + 1))).slashPosition = some 0 ∧
    (step initState (Event.change
        (([] : List Char).take 0 ++ ['/'] ++ ([] : List Char).drop 0)
        (0 + 1))).menuFilter = [] ∧
    (step initState (Event.change
        (([] : List Char).take 0 ++ ['/'] ++ ([] : List Char).drop 0)
        (0 + 1))).selectedIndex = 0 :=
  (slash_trigger_iff initState 0 rfl (by decide)).mpr (Or.inl rfl)

/-- C5: from an open menu state satisfying the menu invariant, typing a
space or newline at the caret closes the menu, and typing any other
character narrows or preserves the filtered command set (every command
that survives the new filter was already in the old filtered set). -/
theorem filter_monotone_step (s : EditorState) (c : Char) (t : Nat)
    (hopen : s.showMenu = true) (hpos : s.slashPosition = some t)
    (ht : t < s.caret) (hc : s.caret ≤ s.value.length)
    (hfil : s.menuFilter = jsSubstring s.value (t + 1) s.caret)
    (hsp : s.menuFilter.contains ' ' = false)
    (hnl : s.menuFilter.contains '\n' = false) :
    ((c = ' ' ∨ c = '\n') →
      (stepEdit s (EditEv.typeChar c)).showMenu = false) ∧
    (c ≠ ' ' → c ≠ '\n' →
      ∀ cmd ∈ filteredCommands (stepEdit s (EditEv.typeChar c)).menuFilter,
        cmd ∈ filteredCommands s.menuFilter) := by
  have hstep : stepEdit s (EditEv.typeChar c)
      = applyMenuEffect s (handleChangeRaw s
          (s.value.take s.caret ++ [c] ++ s.value.drop s.caret)
          (s.caret + 1)) := rfl
  set nv := s.value.take s.caret ++ [c] ++ s.value.drop s.caret with hnv
  have hlen : nv.length = s.value.length + 1 := length_insertAt _ _ _ hc
  have hlt : s.value.length < nv.length := by omega
  have hget : nv.get? (s.caret + 1 - 1) = some c := by
    have h1 : s.caret + 1 - 1 = s.caret := by omega
    rw [hnv, h1]
    exact get?_insertAt_self s.value c s.caret hc
  have hfilins : jsSubstring nv (t + 1) (s.caret + 1)
      = s.menuFilter ++ [c] := by
    rw [hnv, jsSubstring_insertAt s.value c t s.caret ht hc, ← hfil]
  constructor
  · rintro (rfl | rfl)
    · rw [hstep, handleChangeRaw_insert_open s nv (s.caret + 1) ' ' t hlt
        (by omega) hget (by decide) hopen hpos]
      have hcnt : (jsSubstring nv (t + 1) (s.caret + 1)).contains ' '
          = true := by
        rw [hfilins, contains_eq_true_iff]
        simp
      rw [if_pos (Or.inl hcnt), applyMenuEffect_showMenu]
    · rw [hstep, handleChangeRaw_insert_open s nv (s.caret + 1) '\n' t hlt
        (by omega) hget (by decide) hopen hpos]
      have hcnt : (jsSubstring nv (t + 1) (s.caret + 1)).contains '\n'
          = true := by
        rw [hfilins, contains_eq_true_iff]
        simp
      rw [if_pos (Or.inr hcnt), applyMenuEffect_showMenu]
  · intro hcs hcn
    by_cases hslash : c = '/'
    · subst hslash
      rw [hstep, handleChangeRaw_slash s nv (s.caret + 1) hlt (by omega)
        hget]
      by_cases hq : s.caret = t + 1
      · have hfilnil : s.menuFilter = [] := by
          rw [hfil, hq, jsSubstring_eq_of_le _ _ _ (le_refl _) (by omega)]
          simp
        by_cases hcond2 : (if 1 < s.caret + 1 then nv.get? (s.caret + 1 - 2)
              else some '\n') = some '\n' ∨
            (if 1 < s.caret + 1 then nv.get? (s.caret + 1 - 2)
              else some '\n') = some ' ' ∨ s.caret + 1 = 1
        · rw [if_pos hcond2]
          intro cmd hm
          rw [applyMenuEffect_menuFilter] at hm
          dsimp only at hm
          rw [hfilnil]
          exact hm
        · rw [if_neg hcond2]
          intro cmd hm
          rw [applyMenuEffect_menuFilter] at hm
          dsimp only at hm
          exact hm
      · have hlt2 : s.caret - 1 < s.value.length := by omega
        obtain ⟨ch, hch⟩ : ∃ ch, s.value.get? (s.caret - 1) = some ch := by
          rw [List.get?_eq_getElem?]
          exact ⟨_, List.getElem?_eq_getElem hlt2⟩
        have hchmem : ch ∈ s.menuFilter := by
          rw [hfil]
          exact mem_jsSubstring_of_get? s.value (t + 1) s.caret
            (s.caret - 1) ch (by omega) (by omega) hc hch
        have hchs : ch ≠ ' ' := fun h => by
          rw [h] at hchmem
          exact ((contains_eq_false_iff _ _).mp hsp) hchmem
        have hchn : ch ≠ '\n' := fun h => by
          rw [h] at hchmem
          exact ((contains_eq_false_iff _ _).mp hnl) hchmem
        have hbs2 : nv.get? (s.caret + 1 - 2) = some ch := by
          have h2 : s.caret + 1 - 2 = s.caret - 1 := by omega
          rw [h2, hnv, List.append_assoc,
            get?_append_take s.value _ (s.caret - 1) s.caret (by omega) hc]
          exact hch
        have hcondF : ¬ ((if 1 < s.caret + 1 then nv.get? (s.caret + 1 - 2)
              else some '\n') = some '\n' ∨
            (if 1 < s.caret + 1 then nv.get? (s.caret + 1 - 2)
              else some '\n') = some ' ' ∨ s.caret + 1 = 1) := by
          rw [if_pos (by omega), hbs2]
          push_neg
          refine ⟨by simpa using hchn, by simpa using hchs, by omega⟩
        rw [if_neg hcondF, applyMenuEffect_eq_self s
          { s with value := nv, caret := s.caret + 1 } rfl rfl]
        intro cmd hm
        exact hm
    · rw [hstep, handleChangeRaw_insert_open s nv (s.caret + 1) c t hlt
        (by omega) hget hslash hopen hpos]
      have hcondF : ¬ ((jsSubstring nv (t + 1) (s.caret + 1)).contains ' '
            = true ∨
          (jsSubstring nv (t + 1) (s.caret + 1)).contains '\n' = true) := by
        rw [hfilins]
        push_neg
        constructor
        · intro h
          rw [contains_append_single_false _ _ _ hsp hcs] at h
          exact Bool.false_ne_true h
        · intro h
          rw [contains_append_single_false _ _ _ hnl hcn] at h
          exact Bool.false_ne_true h
      rw [if_neg hcondF]
      intro cmd hm
      rw [applyMenuEffect_menuFilter] at hm
      dsimp only at hm
      rw [hfilins] at hm
      exact filteredCommands_append_subset s.menuFilter c cmd hm

/-- Witness for C5: typing a space while the menu is open on buffer
"/b" closes it. -/
theorem filter_monotone_step_witness :
    (stepEdit
      { value := "/b".toList, caret := 2, showMenu := true,
        menuFilter := "b".toList, selectedIndex := 0,
        slashPosition := some 0 }
      (EditEv.typeChar ' ')).showMenu = false :=
  (filter_monotone_step
    { value := "/b".toList, caret := 2, showMenu := true,
      menuFilter := "b".toList, selectedIndex := 0,
      slashPosition := some 0 }
    ' ' 0 rfl rfl (by decide) (by decide) (by decide) (by decide)
    (by decide)).1 (Or.inl rfl)

theorem invC2_typeChar (s : EditorState) (c : Char) (h : InvC2 s)
    (hc : c ≠ '/') : InvC2 (stepEdit s (EditEv.typeChar c)) := by
  obtain ⟨hcar, hmenu⟩ := h
  have hstep : stepEdit s (EditEv.typeChar c)
      = applyMenuEffect s (handleChangeRaw s
          (s.value.take s.caret ++ [c] ++ s.value.drop s.caret)
          (s.caret + 1)) := rfl
  rw [hstep, invC2_applyMenuEffect]
  set nv := s.value.take s.caret ++ [c] ++ s.value.drop s.caret with hnv
  have hlen : nv.length = s.value.length + 1 := length_insertAt _ _ _ hcar
  have hlt : s.value.length < nv.length := by omega
  have hget : nv.get? (s.caret + 1 - 1) = some c := by
    have h1 : s.caret + 1 - 1 = s.caret := by omega
    rw [hnv, h1]
    exact get?_insertAt_self s.value c s.caret hcar
  by_cases hopen : s.showMenu = true
  · obtain ⟨t, hpos, ht, hslash, hfil, hsp, hnl⟩ := hmenu hopen
    rw [handleChangeRaw_insert_open s nv (s.caret + 1) c t hlt (by omega)
      hget hc hopen hpos]
    by_cases hcond :
        (jsSubstring nv (t + 1) (s.caret + 1)).contains ' ' = true ∨
        (jsSubstring nv (t + 1) (s.caret + 1)).contains '\n' = true
    · rw [if_pos hcond]
      exact ⟨by dsimp only; omega, fun hfalse => absurd hfalse (by simp)⟩
    · rw [if_neg hcond]
      push_neg at hcond
      obtain ⟨hc1, hc2⟩ := hcond
      refine ⟨by dsimp only; omega, fun _ => ⟨t, ?_, ?_, ?_, ?_, ?_, ?_⟩⟩
      · exact hpos
      · show t < s.caret + 1
        omega
      · show nv.get? t = some '/'
        rw [hnv, List.append_assoc,
          get?_append_take s.value _ t s.caret ht hcar]
        exact hslash
      · rfl
      · show (jsSubstring nv (t + 1) (s.caret + 1)).contains ' ' = false
        exact Bool.eq_false_iff.mpr hc1
      · show (jsSubstring nv (t + 1) (s.caret + 1)).contains '\n' = false
        exact Bool.eq_false_iff.mpr hc2
  · rw [Bool.not_eq_true] at hopen
    rw [handleChangeRaw_insert_closed s nv (s.caret + 1) c hlt (by omega)
      hget hc hopen]
    exact ⟨by dsimp only; omega, fun hfalse =>
      absurd (show s.showMenu = true from hfalse)
        (by rw [hopen]; exact Bool.false_ne_true)⟩

theorem invC2_backspace (s : EditorState) (h : InvC2 s) :
    InvC2 (stepEdit s EditEv.backspace) := by
  obtain ⟨hcar, hmenu⟩ := h
  have hstep : stepEdit s EditEv.backspace
      = applyMenuEffect s (handleChangeRaw s
          (s.value.take (s.caret - 1) ++ s.value.drop s.caret)
          (s.caret - 1)) := rfl
  rw [hstep, invC2_applyMenuEffect]
  set nv := s.value.take (s.caret - 1) ++ s.value.drop s.caret with hnv
  by_cases h0 : s.caret = 0
  · have hnveq : nv = s.value := by
      rw [hnv, h0]
      simp
    have hge : ¬ s.value.length < nv.length := by rw [hnveq]; omega
    by_cases hopen : s.showMenu = true
    · obtain ⟨t, _, ht, _, _, _, _⟩ := hmenu hopen
      exact absurd ht (by omega)
    · rw [Bool.not_eq_true] at hopen
      rw [handleChangeRaw_del_closed s nv (s.caret - 1) hge hopen]
      refine ⟨?_, fun hfalse =>
        absurd (show s.showMenu = true from hfalse)
          (by rw [hopen]; exact Bool.false_ne_true)⟩
      show s.caret - 1 ≤ nv.length
      rw [hnveq]
      omega
  · have htake : (s.value.take (s.caret - 1)).length = s.caret - 1 := by
      rw [List.length_take]
      exact Nat.min_eq_left (by omega)
    have hlen : nv.length = s.value.length - 1 := by
      rw [hnv, List.length_append, htake, List.length_drop]
      omega
    have hge : ¬ s.value.length < nv.length := by omega
    by_cases hopen : s.showMenu = true
    · obtain ⟨t, hpos, ht, hslash, hfil, hsp, hnl⟩ := hmenu hopen
      rw [handleChangeRaw_del_open s nv (s.caret - 1) t hge hopen hpos]
      by_cases hle : s.caret - 1 ≤ t
      · rw [if_pos hle]
        exact ⟨by dsimp only; omega, fun hfalse => absurd hfalse (by simp)⟩
      · rw [if_neg hle]
        have ht2 : t + 1 < s.caret := by omega
        refine ⟨by dsimp only; omega, fun _ => ⟨t, ?_, ?_, ?_, ?_, ?_, ?_⟩⟩
        · exact hpos
        · show t < s.caret - 1
          omega
        · show nv.get? t = some '/'
          rw [hnv, get?_append_take s.value _ t (s.caret - 1) (by omega)
            (by omega)]
          exact hslash
        · rfl
        · show (jsSubstring nv (t + 1) (s.caret - 1)).contains ' ' = false
          rw [hnv, jsSubstring_backspace s.value t s.caret ht2 hcar, ← hfil]
          exact contains_take_false _ _ _ hsp
        · show (jsSubstring nv (t + 1) (s.caret - 1)).contains '\n' = false
          rw [hnv, jsSubstring_backspace s.value t s.caret ht2 hcar, ← hfil]
          exact contains_take_false _ _ _ hnl
    · rw [Bool.not_eq_true] at hopen
      rw [handleChangeRaw_del_closed s nv (s.caret - 1) hge hopen]
      refine ⟨?_, fun hfalse =>
        absurd (show s.showMenu = true from hfalse)
          (by rw [hopen]; exact Bool.false_ne_true)⟩
      show s.caret - 1 ≤ nv.length
      omega

/-- C2 (amended): restricted to single-character insertions at the caret
of characters other than `/` and to backspace deletions, every state
reachable from a state satisfying the menu invariant again satisfies it:
while the menu is open, the trigger offset holds a `/` still present in
the buffer, and the filter text equals the buffer between the trigger
and the caret and holds no space or newline.  (Insertions of `/` while
the menu is open, and selection-replacements, can break the invariant;
see the counterexample.) -/
theorem menu_invariant_preserved (s : EditorState) (es : List EditEv)
    (hs : InvC2 s) (hall : ∀ e ∈ es, editAllowed e) :
    InvC2 (es.foldl stepEdit s) := by
  induction es generalizing s with
  | nil => exact hs
  | cons e es ih =>
    rw [List.foldl_cons]
    refine ih (stepEdit s e)
      ?_ fun e' he' => hall e' (List.mem_cons_of_mem _ he')
    cases e with
    | typeChar c =>
      exact invC2_typeChar s c hs (hall _ (List.mem_cons_self _ _))
    | backspace => exact invC2_backspace s hs

/-- Witness for C2 (amended): typing "b" then backspace from the initial
state keeps the invariant. -/
theorem menu_invariant_preserved_witness :
    InvC2 ([EditEv.typeChar 'b', EditEv.backspace].foldl stepEdit
      initState) :=
  menu_invariant_preserved initState
    [EditEv.typeChar 'b', EditEv.backspace]
    ⟨Nat.le_refl 0, fun hfalse => absurd hfalse (by decide)⟩
    (by decide)

/-- Counterexample to C2 as stated: the insertion trace `/`, `a`, `/`
(three plain single-character insertions at the caret, starting from the
empty closed editor) reaches a state in which the menu is open with
trigger offset 0 and filter text "a", while the buffer text between the
trigger and the caret is "a/" — the recorded filter text no longer equals
the buffer substring, so the invariant claimed for all insertion
sequences fails. -/
theorem menu_invariant_counterexample :
    ([EditEv.typeChar '/', EditEv.typeChar 'a', EditEv.typeChar '/'].foldl
        stepEdit initState).showMenu = true ∧
    ([EditEv.typeChar '/', EditEv.typeChar 'a', EditEv.typeChar '/'].foldl
        stepEdit initState).slashPosition = some 0 ∧
    ([EditEv.typeChar '/', EditEv.typeChar 'a', EditEv.typeChar '/'].foldl
        stepEdit initState).menuFilter = ['a'] ∧
    jsSubstring
      ([EditEv.typeChar '/', EditEv.typeChar 'a',
          EditEv.typeChar '/'].foldl stepEdit initState).value
      (0 + 1)
      ([EditEv.typeChar '/', EditEv.typeChar 'a',
          EditEv.typeChar '/'].foldl stepEdit initState).caret
      = ['a', '/'] := by
  decide

theorem inv10_set_index (s : EditorState) (j : Int)
    (hj : filteredCommands s.menuFilter ≠ [] →
      0 ≤ j ∧ j < ((filteredCommands s.menuFilter).length : Int)) :
    Inv10 (applyMenuEffect s { s with selectedIndex := j }) := by
  rw [applyMenuEffect_eq_self s { s with selectedIndex := j } rfl rfl]
  intro _ hne
  exact hj hne

theorem inv10_step (s : EditorState) (e : Event) (h : Inv10 s) :
    Inv10 (step s e) := by
  cases e with
  | change nv cp =>
    exact inv10_applyMenuEffect s _ h
      (handleChangeRaw_selectedIndex s nv cp)
  | key k =>
    by_cases hopen : s.showMenu = true
    · cases k with
      | arrowDown =>
        have hraw : handleKeyDownRaw s Key.arrowDown
            = { s with selectedIndex :=
                if s.selectedIndex
                    < ((filteredCommands s.menuFilter).length : Int) - 1
                then s.selectedIndex + 1 else 0 } := by
          unfold handleKeyDownRaw
          rw [if_neg (by rw [hopen]; simp)]
        show Inv10 (applyMenuEffect s (handleKeyDownRaw s Key.arrowDown))
        rw [hraw]
        refine inv10_set_index s _ fun hne => ?_
        obtain ⟨h1, h2⟩ := h hopen hne
        have hpos : 0 < (filteredCommands s.menuFilter).length :=
          List.length_pos.mpr hne
        by_cases hc2 : s.selectedIndex
            < ((filteredCommands s.menuFilter).length : Int) - 1
        · rw [if_pos hc2]
          omega
        · rw [if_neg hc2]
          omega
      | arrowUp =>
        have hraw : handleKeyDownRaw s Key.arrowUp
            = { s with selectedIndex :=
                if 0 < s.selectedIndex then s.selectedIndex - 1
                else ((filteredCommands s.menuFilter).length : Int)
                  - 1 } := by
          unfold handleKeyDownRaw
          rw [if_neg (by rw [hopen]; simp)]
        show Inv10 (applyMenuEffect s (handleKeyDownRaw s Key.arrowUp))
        rw [hraw]
        refine inv10_set_index s _ fun hne => ?_
        obtain ⟨h1, h2⟩ := h hopen hne
        have hpos : 0 < (filteredCommands s.menuFilter).length :=
          List.length_pos.mpr hne
        by_cases hc2 : 0 < s.selectedIndex
        · rw [if_pos hc2]
          omega
        · rw [if_neg hc2]
          omega
      | enter =>
        have hidx : (handleKeyDownRaw s Key.enter).selectedIndex
            = s.selectedIndex := by
          unfold handleKeyDownRaw
          rw [if_neg (by rw [hopen]; simp)]
          cases hj : jsIndex (filteredCommands s.menuFilter)
              s.selectedIndex with
          | none => rfl
          | some cmd => exact insertCommand_selectedIndex s cmd
        exact inv10_applyMenuEffect s _ h hidx
      | tab =>
        have hidx : (handleKeyDownRaw s Key.tab).selectedIndex
            = s.selectedIndex := by
          unfold handleKeyDownRaw
          rw [if_neg (by rw [hopen]; simp)]
          cases hj : jsIndex (filteredCommands s.menuFilter)
              s.selectedIndex with
          | none => rfl
          | some cmd => exact insertCommand_selectedIndex s cmd
        exact inv10_applyMenuEffect s _ h hidx
      | escape =>
        have hidx : (handleKeyDownRaw s Key.escape).selectedIndex
            = s.selectedIndex := by
          unfold handleKeyDownRaw
          rw [if_neg (by rw [hopen]; simp)]
          rfl
        exact inv10_applyMenuEffect s _ h hidx
      | other =>
        have hidx : (handleKeyDownRaw s Key.other).selectedIndex
            = s.selectedIndex := by
          unfold handleKeyDownRaw
          rw [if_neg (by rw [hopen]; simp)]
        exact inv10_applyMenuEffect s _ h hidx
    · rw [Bool.not_eq_true] at hopen
      have hraw : handleKeyDownRaw s k = s := by
        unfold handleKeyDownRaw
        rw [if_pos hopen]
      show Inv10 (applyMenuEffect s (handleKeyDownRaw s k))
      rw [hraw, applyMenuEffect_self]
      exact h
  | clickOutside =>
    have hidx : (if s.showMenu = true then closeMenu s
        else s).selectedIndex = s.selectedIndex := by
      split
      · rfl
      · rfl
    exact inv10_applyMenuEffect s _ h hidx
  | hoverEntry i =>
    by_cases hcond : s.showMenu = true ∧
        i < (filteredCommands s.menuFilter).length
    · show Inv10 (applyMenuEffect s
        (if s.showMenu = true ∧
            i < (filteredCommands s.menuFilter).length
         then { s with selectedIndex := (i : Int) } else s))
      rw [if_pos hcond]
      refine inv10_set_index s _ fun _ => ?_
      refine ⟨by exact_mod_cast Nat.zero_le i, ?_⟩
      exact_mod_cast hcond.2
    · show Inv10 (applyMenuEffect s
        (if s.showMenu = true ∧
            i < (filteredCommands s.menuFilter).length
         then { s with selectedIndex := (i : Int) } else s))
      rw [if_neg hcond, applyMenuEffect_self]
      exact h
  | clickEntry i =>
    have hidx : (if s.showMenu = true then
        match (filteredCommands s.menuFilter).get? i with
        | some cmd => insertCommand s cmd
        | none => s
      else s).selectedIndex = s.selectedIndex := by
      split
      · cases hg : (filteredCommands s.menuFilter).get? i with
        | none => rfl
        | some cmd => exact insertCommand_selectedIndex s cmd
      · rfl
    exact inv10_applyMenuEffect s _ h hidx

/-- C10 (implicit): every menu opening and every change of the filter
text while the menu is shown resets `selectedIndex` to 0 (the
`useEffect`), and the bound `0 ≤ selectedIndex < length(filteredList)`
(whenever the menu is shown with a non-empty filtered list) is preserved
by every event the editor reacts to and therefore holds in every state
reachable from a state satisfying it; narrowing the filter can never
leave the highlight past the end of the list. -/
theorem selected_index_invariant (s : EditorState) (e : Event)
    (h : Inv10 s) :
    ((step s e).showMenu = true →
      (s.showMenu = false ∨ (step s e).menuFilter ≠ s.menuFilter) →
      (step s e).selectedIndex = 0) ∧
    Inv10 (step s e) ∧
    (∀ es : List Event, Inv10 (es.foldl step s)) := by
  refine ⟨?_, inv10_step s e h, ?_⟩
  · cases e <;> exact applyMenuEffect_reset s _
  · have key : ∀ (es : List Event) (s' : EditorState),
        Inv10 s' → Inv10 (es.foldl step s') := by
      intro es
      induction es with
      | nil => exact fun s' h' => h'
      | cons e' es ih => exact fun s' h' => ih _ (inv10_step s' e' h')
    exact fun es => key es s h

/-- Witness for C10: opening the menu by typing `/` into the empty
editor keeps the selected-index bound. -/
theorem selected_index_invariant_witness :
    Inv10 (step initState (Event.change ['/'] 1)) :=
  (selected_index_invariant initState (Event.change ['/'] 1)
    (fun hfalse => absurd hfalse (by decide))).2.1

/-- Witness for C8: Escape on a concrete open state keeps the buffer and
caret and closes the menu. -/
theorem cancel_preserves_buffer_witness :
    (step
      { value := "a /co".toList, caret := 5, showMenu := true,
        menuFilter := "co".toList, selectedIndex := 2,
        slashPosition := some 2 }
      (Event.key Key.escape)).value = "a /co".toList :=
  (cancel_preserves_buffer
    { value := "a /co".toList, caret := 5, showMenu := true,
      menuFilter := "co".toList, selectedIndex := 2,
      slashPosition := some 2 }
    rfl).1

end BookBrain
